import Mathlib

/-!
Verification of the Japanese word-frequency pipeline (src/main.rs).

The development shallowly embeds the pure core of the program:
the token merger `process_nodes`, the feature-string adapter of
`parse_text`, the fragment splitter (`is_separator` plus the splitting
of Rust `str::split`), the script filter applied before surface-map
insertion, the local/global frequency aggregation, and the fail-fast
driver loop of `process_with_ipadic`.  The external morphological
analyzer and the JSON parser are abstracted as function parameters.
Frequencies are `u32` in the source; they are embedded as `Nat` with
wrapping addition `u32add` (release-mode `u32` arithmetic).
-/

/-- A token as produced by the tokenizer adapter (struct `Node` in the source). -/
structure Node where
  text : String
  pos : String
  dictionary_form : String
deriving DecidableEq, Repr

/-- One surface-frequency entry (struct `NodeFrequency` in the source). -/
structure NodeFrequency where
  pos : String
  dictionary_form : String
  frequency : Nat
deriving DecidableEq, Repr

/-- Release-mode `u32` addition: wrapping addition modulo `2 ^ 32`. -/
def u32add (a b : Nat) : Nat :=
  (a + b) % 4294967296

/-- The ordered suffix match of `process_nodes`: the Rust `match (a, b, c, d)`
on the surface texts of the four lookahead tokens, with the arms in source
order; the result is the literal suffix text (also used as the inflection tag)
together with the number `k` of lookahead tokens the arm consumes (`i += k`). -/
def match_inflection (a b c d : Option String) : Option (String × Nat) :=
  if a = some "ませ" ∧ b = some "ん" ∧ c = some "でし" ∧ d = some "た" then some ("ませんでした", 4)
  else if a = some "させ" ∧ b = some "られ" ∧ c = some "ない" then some ("させられない", 3)
  else if a = some "られ" ∧ b = some "ませ" ∧ c = some "ん" then some ("られません", 3)
  else if a = some "させ" ∧ b = some "ない" then some ("させない", 2)
  else if a = some "させ" ∧ b = some "られる" then some ("させられる", 2)
  else if a = some "なかっ" ∧ b = some "た" then some ("なかった", 2)
  else if a = some "なく" ∧ b = some "て" then some ("なくて", 2)
  else if a = some "まし" ∧ b = some "た" then some ("ました", 2)
  else if a = some "せ" ∧ b = some "ない" then some ("せない", 2)
  else if a = some "ませ" ∧ b = some "ん" then some ("ません", 2)
  else if a = some "られ" ∧ b = some "ない" then some ("られない", 2)
  else if a = some "られ" ∧ b = some "ます" then some ("られます", 2)
  else if a = some "れ" ∧ b = some "ない" then some ("れない", 2)
  else if a = some "させる" then some ("させる", 1)
  else if a = some "せる" then some ("せる", 1)
  else if a = some "た" then some ("た", 1)
  else if a = some "だ" then some ("だ", 1)
  else if a = some "て" then some ("て", 1)
  else if a = some "で" then some ("で", 1)
  else if a = some "な" then some ("な", 1)
  else if a = some "ない" then some ("ない", 1)
  else if a = some "ます" then some ("ます", 1)
  else if a = some "られる" then some ("られる", 1)
  else if a = some "れる" then some ("れる", 1)
  else none

/-- The lookahead `peek_n` of `process_nodes`: the surface text of the token
at offset `i + n`, absent when `i + n` is past the end of the sequence. -/
def la (nodes : List Node) (i n : Nat) : Option String :=
  (nodes.get? (i + n)).map (fun v => v.text)

/-- One iteration of `process_nodes`' loop body at the current token:
the emitted token, the inflection tag recorded (if an arm fired), and the
total cursor advance (`i += k` inside the arm plus the trailing `i += 1`). -/
def merge_step (node : Node) (a b c d : Option String) : Node × Option String × Nat :=
  if node.pos = "動詞" then
    match match_inflection a b c d with
    | some (tag, k) =>
      ({ text := node.text ++ tag, pos := node.pos, dictionary_form := node.dictionary_form },
        some tag, k + 1)
    | none => (node, none, 1)
  else (node, none, 1)

/-- The `while i < nodes.len()` loop of `process_nodes`, with a fuel argument
bounding the number of iterations.  The cursor advances by at least 1 per
iteration, so `nodes.length` fuel (as used by `process_nodes`) is exact. -/
def process_go (nodes : List Node) : Nat → Nat → List Node × List String
  | 0, _ => ([], [])
  | fuel + 1, i =>
    match nodes.get? i with
    | none => ([], [])
    | some node =>
      let s := merge_step node (la nodes i 1) (la nodes i 2) (la nodes i 3) (la nodes i 4)
      let rest := process_go nodes fuel (i + s.2.2)
      (s.1 :: rest.1, s.2.1.toList ++ rest.2)

/-- Function `process_nodes` of the source: scan from cursor 0; the second component is
the sequence of inflection tags recorded by `insert_inflection`, in order
(the source's tag-to-count map is this sequence's multiset of counts). -/
def process_nodes (nodes : List Node) : List Node × List String :=
  process_go nodes nodes.length 0

/-- The cursor advance of one loop iteration of `process_nodes` (0 once the
cursor is out of range and the loop has stopped). -/
def step_adv (nodes : List Node) (i : Nat) : Nat :=
  match nodes.get? i with
  | none => 0
  | some node =>
    (merge_step node (la nodes i 1) (la nodes i 2) (la nodes i 3) (la nodes i 4)).2.2

/-- The cursor value at which the scan loop stops, starting from `i`
with the given fuel. -/
def final_cursor (nodes : List Node) : Nat → Nat → Nat
  | 0, i => i
  | fuel + 1, i =>
    if i < nodes.length then final_cursor nodes fuel (i + step_adv nodes i) else i

/-- The 24 suffix patterns in the declared priority order (spec §4.3):
lookahead literals together with the resulting tag (the appended suffix);
the arity of a rule is the length of its lookahead tuple. -/
def inflection_table : List (List String × String) :=
  [ (["ませ", "ん", "でし", "た"], "ませんでした"),
    (["させ", "られ", "ない"], "させられない"),
    (["られ", "ませ", "ん"], "られません"),
    (["させ", "ない"], "させない"),
    (["させ", "られる"], "させられる"),
    (["なかっ", "た"], "なかった"),
    (["なく", "て"], "なくて"),
    (["まし", "た"], "ました"),
    (["せ", "ない"], "せない"),
    (["ませ", "ん"], "ません"),
    (["られ", "ない"], "られない"),
    (["られ", "ます"], "られます"),
    (["れ", "ない"], "れない"),
    (["させる"], "させる"),
    (["せる"], "せる"),
    (["た"], "た"),
    (["だ"], "だ"),
    (["て"], "て"),
    (["で"], "で"),
    (["な"], "な"),
    (["ない"], "ない"),
    (["ます"], "ます"),
    (["られる"], "られる"),
    (["れる"], "れる") ]

/-- A rule's lookahead literals all match the (optional) lookahead surfaces. -/
def rule_matches : List String → List (Option String) → Prop
  | [], _ => True
  | _ :: _, [] => False
  | p :: ps, o :: os => o = some p ∧ rule_matches ps os

instance instDecRuleMatches : ∀ (ps : List String) (os : List (Option String)),
    Decidable (rule_matches ps os)
  | [], _ => isTrue trivial
  | _ :: _, [] => isFalse (fun h => (h : False))
  | p :: ps, o :: os =>
    have : Decidable (rule_matches ps os) := instDecRuleMatches ps os
    inferInstanceAs (Decidable (o = some p ∧ rule_matches ps os))

/-- First-match semantics over a priority-ordered rule table (spec §4.3:
"Patterns are tried strictly in the declared order; the first one whose
lookahead slots all match wins"). -/
def first_match (table : List (List String × String)) (os : List (Option String)) :
    Option (String × Nat) :=
  match table with
  | [] => none
  | r :: rs => if rule_matches r.1 os then some (r.2, r.1.length) else first_match rs os

/-- The token sequence of the spec's second merger test:
`[verb("見"), "られ", "ない", "だ"]`. -/
def exampleC1 : List Node :=
  [ { text := "見", pos := "動詞", dictionary_form := "見る" },
    { text := "られ", pos := "助動詞", dictionary_form := "られる" },
    { text := "ない", pos := "助動詞", dictionary_form := "ない" },
    { text := "だ", pos := "助動詞", dictionary_form := "だ" } ]

/-- Rust `char::is_whitespace`: the Unicode `White_Space` property
(the 25 code points of PropList.txt). -/
def is_unicode_whitespace (c : Char) : Bool :=
  let n := c.toNat
  (0x09 ≤ n && n ≤ 0x0D) || n == 0x20 || n == 0x85 || n == 0xA0 || n == 0x1680
    || (0x2000 ≤ n && n ≤ 0x200A) || n == 0x2028 || n == 0x2029 || n == 0x202F
    || n == 0x205F || n == 0x3000

/-- Rust `char::is_ascii_punctuation`: `U+0021..U+002F`, `U+003A..U+0040`,
`U+005B..U+0060`, `U+007B..U+007E`. -/
def is_ascii_punctuation (c : Char) : Bool :=
  let n := c.toNat
  (0x21 ≤ n && n ≤ 0x2F) || (0x3A ≤ n && n ≤ 0x40)
    || (0x5B ≤ n && n ≤ 0x60) || (0x7B ≤ n && n ≤ 0x7E)

/-- Predicate `is_separator` of the source: Unicode whitespace, ASCII punctuation, or
one of the fixed full-width marks. -/
def is_separator (c : Char) : Bool :=
  is_unicode_whitespace c || is_ascii_punctuation c
    || c = '，' || c = '…' || c = '‥' || c = '。' || c = '！' || c = '？'

/-- Rust `str::split` over a character predicate, on the character list:
one fragment per maximal span between separator occurrences.  Empty spans
(between adjacent separators, or at the ends) are kept, as Rust does. -/
def rust_split (p : Char → Bool) : List Char → List (List Char)
  | [] => [[]]
  | c :: rest =>
    if p c then [] :: rust_split p rest
    else
      match rust_split p rest with
      | f :: fs => (c :: f) :: fs
      | [] => [[c]]

/-- The segmenter `entry.text.split(is_separator)` of the source. -/
def split_seps (s : String) : List String :=
  (rust_split is_separator s.data).map (fun cs => String.mk cs)

/-- Modelled from the spec: the Unicode script class `Han` tested by the
external regex engine (the source's regex uses `\p{Han}`); the ranges are
the `Han` entries of Unicode `Scripts.txt`. -/
def is_han (c : Char) : Bool :=
  let n := c.toNat
  (0x2E80 ≤ n && n ≤ 0x2E99) || (0x2E9B ≤ n && n ≤ 0x2EF3) || (0x2F00 ≤ n && n ≤ 0x2FD5)
    || n == 0x3005 || n == 0x3007 || (0x3021 ≤ n && n ≤ 0x3029) || (0x3038 ≤ n && n ≤ 0x303B)
    || (0x3400 ≤ n && n ≤ 0x4DBF) || (0x4E00 ≤ n && n ≤ 0x9FFF)
    || (0xF900 ≤ n && n ≤ 0xFA6D) || (0xFA70 ≤ n && n ≤ 0xFAD9)
    || (0x20000 ≤ n && n ≤ 0x2A6DF) || (0x2A700 ≤ n && n ≤ 0x2B739)
    || (0x2B740 ≤ n && n ≤ 0x2B81D) || (0x2B820 ≤ n && n ≤ 0x2CEA1)
    || (0x2CEB0 ≤ n && n ≤ 0x2EBE0) || (0x2EBF0 ≤ n && n ≤ 0x2EE5D)
    || (0x2F800 ≤ n && n ≤ 0x2FA1D) || (0x30000 ≤ n && n ≤ 0x3134A)
    || (0x31350 ≤ n && n ≤ 0x323AF)

/-- Modelled from the spec: the Unicode script class `Katakana`
(`\p{Katakana}` in the source's regex), per Unicode `Scripts.txt`. -/
def is_katakana (c : Char) : Bool :=
  let n := c.toNat
  (0x30A1 ≤ n && n ≤ 0x30FA) || (0x30FD ≤ n && n ≤ 0x30FF)
    || (0x31F0 ≤ n && n ≤ 0x31FF) || (0x32D0 ≤ n && n ≤ 0x32FE) || (0x3300 ≤ n && n ≤ 0x3357)
    || (0xFF66 ≤ n && n ≤ 0xFF6F) || (0xFF71 ≤ n && n ≤ 0xFF9D)
    || (0x1AFF0 ≤ n && n ≤ 0x1AFF3) || (0x1AFF5 ≤ n && n ≤ 0x1AFFB)
    || (0x1AFFD ≤ n && n ≤ 0x1AFFE) || n == 0x1B000 || (0x1B120 ≤ n && n ≤ 0x1B122)
    || n == 0x1B155 || (0x1B164 ≤ n && n ≤ 0x1B167)

/-- Modelled from the spec: the Unicode script class `Hiragana`
(`\p{Hiragana}` in the source's regex), per Unicode `Scripts.txt`. -/
def is_hiragana (c : Char) : Bool :=
  let n := c.toNat
  (0x3041 ≤ n && n ≤ 0x3096) || (0x309D ≤ n && n ≤ 0x309F)
    || (0x1B001 ≤ n && n ≤ 0x1B11F) || n == 0x1B132 || (0x1B150 ≤ n && n ≤ 0x1B152)
    || n == 0x1F200

/-- A character accepted by the filter regex's class. -/
def is_jp_char (c : Char) : Bool :=
  is_han c || is_katakana c || is_hiragana c

/-- The filter gate `regex.captures(&node.text).is_some()` of the source:
the anchored regex `^(\p{Han}|\p{Katakana}|\p{Hiragana})+$` accepts exactly
the non-empty strings all of whose characters are in the class. -/
def surface_ok (s : String) : Bool :=
  !s.isEmpty && s.data.all is_jp_char

/-- A surface frequency map (`FxHashMap<String, NodeFrequency>` in the
source), modelled extensionally per key. -/
def SurfMap : Type := String → Option NodeFrequency

/-- An inflection-tag frequency map (`FxHashMap<&str, u32>` in the source). -/
def InflMap : Type := String → Option Nat

/-- The empty surface map (`FxHashMap::default()`). -/
def emptySurf : SurfMap := fun _ => none

/-- The empty inflection map (`FxHashMap::default()`). -/
def emptyInfl : InflMap := fun _ => none

/-- Recording one processed node into a record-local surface map:
the filter gate, then `entry(node.text).and_modify(frequency += 1)
.or_insert(NodeFrequency { pos, dictionary_form, frequency: 1 })`. -/
def record_node (m : SurfMap) (node : Node) : SurfMap :=
  if surface_ok node.text then
    fun k =>
      if k = node.text then
        match m node.text with
        | some e => some { e with frequency := u32add e.frequency 1 }
        | none => some { pos := node.pos, dictionary_form := node.dictionary_form, frequency := 1 }
      else m k
  else m

/-- The `for node in processed_nodes.0` loop of the source. -/
def record_all (m : SurfMap) (ns : List Node) : SurfMap :=
  ns.foldl record_node m

/-- Closure `insert_inflection`: `entry(tag).and_modify(v += 1).or_insert(1)`. -/
def bump (m : InflMap) (tag : String) : InflMap :=
  fun k =>
    if k = tag then
      match m tag with
      | some v => some (u32add v 1)
      | none => some 1
    else m k

/-- Accumulating a sequence of fired inflection tags into a tag map
(the source's per-fragment `insert_inflection` calls, and equally the
`for (infection, frequency) in processed_nodes.1` merge into the
record-local map). -/
def record_tags (m : InflMap) (tags : List String) : InflMap :=
  tags.foldl bump m

/-- The per-shard / global reduction of surface maps (the
`for (key, value) in frequency_list.0` loop): for each source key,
`entry(key).and_modify(node.frequency += value.frequency).or_insert(value)`;
the target's pos and dictionary form are kept untouched. -/
def mergeInto (target source : SurfMap) : SurfMap :=
  fun k =>
    match target k, source k with
    | some t, some s => some { t with frequency := u32add t.frequency s.frequency }
    | some t, none => some t
    | none, s => s

/-- The reduction of inflection maps (the
`for (infection, frequency) in frequency_list.1` loop). -/
def mergeInfl (target source : InflMap) : InflMap :=
  fun k =>
    match target k, source k with
    | some t, some s => some (u32add t s)
    | some t, none => some t
    | none, s => s

/-- The feature-field extraction of `parse_text`: `feature.split(',')`, one
`next()` for the part-of-speech (total, since a split is never empty), then
`skip(5)` and `next().unwrap_or("")` for the dictionary form. -/
def parse_feature (feature : String) : String × String :=
  let fields := (rust_split (fun c => c == ',') feature.data).map (fun cs => String.mk cs)
  let pos := fields.headD ""
  let dictionary_form := ((fields.drop 1).drop 5).headD ""
  (pos, dictionary_form)

/-- The spec's reading of the same extraction (§6 / C6): part-of-speech from
field 0 and dictionary form from the field at index 5 (0-based), defaulting
to the empty string when absent. -/
def parse_feature_spec (feature : String) : String × String :=
  let fields := (rust_split (fun c => c == ',') feature.data).map (fun cs => String.mk cs)
  (((fields.get? 0).getD ""), ((fields.get? 5).getD ""))

/-- A corpus record (struct `Entry`; only `text` is used by the pipeline). -/
structure Entry where
  text : String
deriving DecidableEq, Repr

/-- Reading one shard's records: `serde_json::from_str(&line).unwrap()` on
every line — the first unparseable line aborts the whole run (no list of
entries is produced at all).  The JSON parser is abstract. -/
def load_entries (parse : String → Option Entry) : List String → Option (List Entry)
  | [] => some []
  | l :: ls =>
    match parse l with
    | none => none
    | some e => (load_entries parse ls).map (fun es => e :: es)

/-- Processing one record (the closure of the `par_iter().map(...)`):
split the text, tokenize each fragment (the analyzer is abstract), run the
merger, and accumulate the record-local maps. -/
def process_entry (tokenize : String → List Node) (e : Entry) : SurfMap × InflMap :=
  (split_seps e.text).foldl
    (fun acc part =>
      let p := process_nodes (tokenize part)
      (record_all acc.1 p.1, record_tags acc.2 p.2))
    (emptySurf, emptyInfl)

/-- Reducing one shard's per-record results into the global accumulator
(the `for frequency_list in frequency_lists` loop). -/
def merge_shard (tokenize : String → List Node) (g : SurfMap × InflMap)
    (entries : List Entry) : SurfMap × InflMap :=
  entries.foldl
    (fun g e =>
      let l := process_entry tokenize e
      (mergeInto g.1 l.1, mergeInfl g.2 l.2))
    g

/-- The shard loop of `process_with_ipadic`: each shard is either missing
(`File::open` fails, `?` aborts the run) or a list of lines; a missing shard
or an unparseable record yields no result at all — never a partial one. -/
def run_shards (tokenize : String → List Node) (parse : String → Option Entry)
    (g : SurfMap × InflMap) : List (Option (List String)) → Option (SurfMap × InflMap)
  | [] => some g
  | none :: _ => none
  | some lines :: rest =>
    match load_entries parse lines with
    | none => none
    | some entries => run_shards tokenize parse (merge_shard tokenize g entries) rest

/-- A local surface map recording "み" as a verb. -/
def cexM1 : SurfMap :=
  fun k => if k = "み" then some { pos := "動詞", dictionary_form := "みる", frequency := 1 }
           else none

/-- A local surface map recording the same key "み" as a noun. -/
def cexM2 : SurfMap :=
  fun k => if k = "み" then some { pos := "名詞", dictionary_form := "み", frequency := 1 }
           else none

/-- The spec's example local map `{A:(pos,lemma,3)}`. -/
def witM3 : SurfMap :=
  fun k => if k = "あ" then some { pos := "動詞", dictionary_form := "ある", frequency := 3 }
           else none

/-- The spec's example local map `{A:(pos,lemma,2)}`. -/
def witM2 : SurfMap :=
  fun k => if k = "あ" then some { pos := "動詞", dictionary_form := "ある", frequency := 2 }
           else none

/-- The token sequence of the mixed-script filtering demonstration:
a verb whose surface contains a Latin letter and an ASCII digit,
followed by the "られ", "ない" suffix tokens. -/
def exampleC4 : List Node :=
  [ { text := "A1", pos := "動詞", dictionary_form := "A1る" },
    { text := "られ", pos := "助動詞", dictionary_form := "られる" },
    { text := "ない", pos := "助動詞", dictionary_form := "ない" } ]

theorem matcher_eq_table (a b c d : Option String) :
    match_inflection a b c d = first_match inflection_table [a, b, c, d] := by
  simp only [match_inflection, first_match, inflection_table, rule_matches, and_true,
    List.length_cons, List.length_nil]

theorem rule_matches_slot (ps : List String) (os : List (Option String))
    (h : rule_matches ps os) : ∀ j, j < ps.length → ∃ s, os.get? j = some (some s) := by
  induction ps generalizing os with
  | nil =>
    intro j hj
    simp at hj
  | cons p ps2 ih =>
    intro j hj
    cases os with
    | nil => exact ((h : False)).elim
    | cons o os2 =>
      obtain ⟨ho, hrest⟩ := h
      cases j with
      | zero => exact ⟨p, by simp [ho]⟩
      | succ j2 => simpa using ih os2 hrest j2 (by simpa using hj)

theorem table_arity_bounds : ∀ r ∈ inflection_table, 1 ≤ r.1.length ∧ r.1.length ≤ 4 := by
  decide

theorem first_match_mem (table : List (List String × String)) (os : List (Option String))
    (t : String) (k : Nat) (h : first_match table os = some (t, k)) :
    ∃ r, r ∈ table ∧ r.2 = t ∧ r.1.length = k ∧ rule_matches r.1 os := by
  induction table with
  | nil => simp [first_match] at h
  | cons r rs ih =>
    rw [first_match] at h
    split_ifs at h with hr
    · simp only [Option.some.injEq, Prod.mk.injEq] at h
      exact ⟨r, List.mem_cons_self r rs, h.1, h.2, hr⟩
    · obtain ⟨r2, hmem, h1, h2, h3⟩ := ih h
      exact ⟨r2, List.mem_cons_of_mem r hmem, h1, h2, h3⟩

theorem match_inflection_some (a b c d : Option String) (t : String) (k : Nat)
    (h : match_inflection a b c d = some (t, k)) :
    1 ≤ k ∧ k ≤ 4 ∧ (k = 1 → a.isSome = true) ∧ (k = 2 → b.isSome = true) ∧
      (k = 3 → c.isSome = true) ∧ (k = 4 → d.isSome = true) := by
  rw [matcher_eq_table] at h
  obtain ⟨r, hmem, ht, hk, hrm⟩ := first_match_mem _ _ _ _ h
  obtain ⟨hlo, hhi⟩ := table_arity_bounds r hmem
  have hslot := rule_matches_slot r.1 [a, b, c, d] hrm
  refine ⟨by omega, by omega, ?_, ?_, ?_, ?_⟩ <;> intro hkk
  · obtain ⟨s, hs⟩ := hslot 0 (by omega)
    simp only [List.get?] at hs
    simp [Option.some.inj hs]
  · obtain ⟨s, hs⟩ := hslot 1 (by omega)
    simp only [List.get?] at hs
    simp [Option.some.inj hs]
  · obtain ⟨s, hs⟩ := hslot 2 (by omega)
    simp only [List.get?] at hs
    simp [Option.some.inj hs]
  · obtain ⟨s, hs⟩ := hslot 3 (by omega)
    simp only [List.get?] at hs
    simp [Option.some.inj hs]

theorem la_isSome (nodes : List Node) (i n : Nat) (h : (la nodes i n).isSome = true) :
    i + n < nodes.length := by
  by_contra hlt
  push_neg at hlt
  have hnone : nodes.get? (i + n) = none := List.get?_eq_none.mpr hlt
  unfold la at h
  rw [hnone] at h
  simp at h

theorem step_adv_pos (nodes : List Node) (i : Nat) (h : i < nodes.length) :
    1 ≤ step_adv nodes i := by
  cases hg : nodes.get? i with
  | none =>
    rw [List.get?_eq_none] at hg
    omega
  | some node =>
    simp only [step_adv, hg, merge_step]
    split_ifs
    · cases hm : match_inflection (la nodes i 1) (la nodes i 2) (la nodes i 3) (la nodes i 4) with
      | none => simp
      | some tk => cases tk with | mk t k => simp
    · simp

theorem step_adv_le (nodes : List Node) (i : Nat) (h : i < nodes.length) :
    i + step_adv nodes i ≤ nodes.length := by
  cases hg : nodes.get? i with
  | none =>
    rw [List.get?_eq_none] at hg
    omega
  | some node =>
    simp only [step_adv, hg, merge_step]
    split_ifs
    · cases hm : match_inflection (la nodes i 1) (la nodes i 2) (la nodes i 3) (la nodes i 4) with
      | none => simpa using h
      | some tk =>
        obtain ⟨t, k⟩ := tk
        obtain ⟨hk1, hk4, hs1, hs2, hs3, hs4⟩ := match_inflection_some _ _ _ _ t k hm
        interval_cases k
        · have := la_isSome nodes i 1 (hs1 rfl)
          simpa using this
        · have := la_isSome nodes i 2 (hs2 rfl)
          simpa using this
        · have := la_isSome nodes i 3 (hs3 rfl)
          simpa using this
        · have := la_isSome nodes i 4 (hs4 rfl)
          simpa using this
    · simpa using h

theorem final_cursor_reaches (nodes : List Node) :
    ∀ fuel i, i ≤ nodes.length → nodes.length - i ≤ fuel →
      final_cursor nodes fuel i = nodes.length := by
  intro fuel
  induction fuel with
  | zero =>
    intro i h1 h2
    have hi : i = nodes.length := by omega
    simp [final_cursor, hi]
  | succ fuel ih =>
    intro i h1 h2
    rw [final_cursor]
    split_ifs with hlt
    · have hp := step_adv_pos nodes i hlt
      have hle := step_adv_le nodes i hlt
      exact ih _ hle (by omega)
    · omega

/-- C1: when the merger's cursor rests on a token tagged "動詞", the 24 suffix
patterns of the fixed table are tried strictly in the declared priority order
over the surface texts of up to 4 lookahead tokens and the first pattern whose
lookahead slots all match wins (the source's ordered match equals first-match
over the declared table); in particular on `[verb("見"), "られ", "ない", "だ"]`
the merger emits the single merged token "見られない" (rule 11, consuming the
verb plus 2 lookahead tokens) and then emits "だ" as a separate, unmerged
token. -/
theorem verb_patterns_priority_order :
    inflection_table.length = 24 ∧
    (∀ a b c d : Option String,
        match_inflection a b c d = first_match inflection_table [a, b, c, d]) ∧
    process_nodes exampleC1 =
      ([ { text := "見られない", pos := "動詞", dictionary_form := "見る" },
         { text := "だ", pos := "助動詞", dictionary_form := "だ" } ], ["られない"]) :=
  ⟨by decide, matcher_eq_table, by decide⟩

/-- C3: the merger's cursor starts at 0 (`process_nodes` is the scan from
cursor 0), every in-range step advances the cursor by at least 1 and never
past the sequence length, a step advances by exactly 1 on a non-verb token or
a verb with no matching pattern and by `k + 1` on a verb whose pattern match
consumed `k` lookahead tokens, and the scan stops with the cursor exactly at
the sequence length. -/
theorem cursor_monotone_and_terminates (nodes : List Node) (i : Nat)
    (h : i < nodes.length) :
    process_nodes nodes = process_go nodes nodes.length 0 ∧
    1 ≤ step_adv nodes i ∧
    i + step_adv nodes i ≤ nodes.length ∧
    (∀ node, nodes.get? i = some node →
      ((node.pos ≠ "動詞" ∨
          match_inflection (la nodes i 1) (la nodes i 2) (la nodes i 3) (la nodes i 4) = none) →
        step_adv nodes i = 1) ∧
      (∀ t k,
        node.pos = "動詞" →
        match_inflection (la nodes i 1) (la nodes i 2) (la nodes i 3) (la nodes i 4)
          = some (t, k) →
        step_adv nodes i = k + 1)) ∧
    final_cursor nodes (nodes.length - i) i = nodes.length := by
  refine ⟨rfl, step_adv_pos nodes i h, step_adv_le nodes i h, ?_,
    final_cursor_reaches nodes (nodes.length - i) i (le_of_lt h) le_rfl⟩
  intro node hnode
  constructor
  · intro hcase
    simp only [step_adv, hnode, merge_step]
    rcases hcase with hnv | hnm
    · rw [if_neg hnv]
    · split_ifs
      · rw [hnm]
      · rfl
  · intro t k hv hm
    simp only [step_adv, hnode, merge_step]
    rw [if_pos hv, hm]

/-- Witness for C3 at the concrete sequence `exampleC1`, cursor 0. -/
theorem cursor_monotone_and_terminates_witness :
    1 ≤ step_adv exampleC1 0 ∧ 0 + step_adv exampleC1 0 ≤ exampleC1.length ∧
      final_cursor exampleC1 (exampleC1.length - 0) 0 = exampleC1.length :=
  ⟨(cursor_monotone_and_terminates exampleC1 0 (by decide)).2.1,
   (cursor_monotone_and_terminates exampleC1 0 (by decide)).2.2.1,
   (cursor_monotone_and_terminates exampleC1 0 (by decide)).2.2.2.2⟩

/-- C2 counterexample: reducing the two concrete local maps `cexM1`, `cexM2`
into an empty accumulator in the two possible orders yields different final
accumulators (the stored pos/lemma for the shared key differs), so the merge
is not order-independent over arbitrary local maps. -/
theorem merge_not_order_independent :
    List.foldl mergeInto emptySurf [cexM1, cexM2] ≠
      List.foldl mergeInto emptySurf [cexM2, cexM1] := by
  intro hcontra
  have h := congrFun hcontra "み"
  simp [mergeInto, emptySurf, cexM1, cexM2, u32add, List.foldl] at h

/-- C2 (amended): `merge_into` is associative on surface maps, and both
commutative and associative on inflection maps; on surface maps it is
commutative — and hence reduction order-independent — whenever the maps agree
on pos and dictionary form at every shared key (as when a key is always
produced by the same token attributes); with conflicting pos/lemma on a shared
key, the earlier-merged map's pos/lemma wins. -/
theorem merge_assoc_and_conditional_comm :
    (∀ x y z : SurfMap, mergeInto (mergeInto x y) z = mergeInto x (mergeInto y z)) ∧
    (∀ x y z : InflMap, mergeInfl (mergeInfl x y) z = mergeInfl x (mergeInfl y z)) ∧
    (∀ x y : InflMap, mergeInfl x y = mergeInfl y x) ∧
    (∀ x y : SurfMap,
      (∀ k v w, x k = some v → y k = some w →
        v.pos = w.pos ∧ v.dictionary_form = w.dictionary_form) →
      mergeInto x y = mergeInto y x) := by
  refine ⟨?_, ?_, ?_, ?_⟩
  · intro x y z
    funext k
    simp only [mergeInto]
    cases hx : x k <;> cases hy : y k <;> cases hz : z k <;> simp [u32add] <;> omega
  · intro x y z
    funext k
    simp only [mergeInfl]
    cases hx : x k <;> cases hy : y k <;> cases hz : z k <;> simp [u32add] <;> omega
  · intro x y
    funext k
    simp only [mergeInfl]
    cases hx : x k <;> cases hy : y k <;> simp [u32add] <;> omega
  · intro x y hagree
    funext k
    simp only [mergeInto]
    cases hx : x k with
    | none => cases hy : y k <;> simp
    | some v =>
      cases hy : y k with
      | none => simp
      | some w =>
        obtain ⟨hp, hd⟩ := hagree k v w hx hy
        cases v with
        | mk vp vd vf =>
          cases w with
          | mk wp wd wf =>
            simp only at hp hd
            subst hp
            subst hd
            simp [u32add]
            omega

/-- Witness for C2 (amended) at the spec's example maps, which agree on
pos/lemma at their shared key. -/
theorem merge_assoc_and_conditional_comm_witness :
    mergeInto witM3 witM2 = mergeInto witM2 witM3 :=
  merge_assoc_and_conditional_comm.2.2.2 witM3 witM2 (by
    intro k v w hv hw
    by_cases hk : k = "あ"
    · simp only [witM3, witM2, hk, if_pos] at hv hw
      obtain rfl := Option.some.inj hv
      obtain rfl := Option.some.inj hw
      exact ⟨rfl, rfl⟩
    · simp [witM3, hk] at hv)

theorem record_node_preserve (m : SurfMap) (node : Node) (s : String)
    (hs : surface_ok s = false) : record_node m node s = m s := by
  unfold record_node
  split_ifs with hok
  · by_cases hk : s = node.text
    · rw [hk] at hs
      rw [hok] at hs
      exact absurd hs (by simp)
    · simp [hk]
  · rfl

theorem record_all_preserve (ns : List Node) (m : SurfMap) (s : String)
    (hs : surface_ok s = false) : record_all m ns s = m s := by
  induction ns generalizing m with
  | nil => rfl
  | cons n rest ih =>
    show record_all (record_node m n) rest s = m s
    rw [ih (record_node m n)]
    exact record_node_preserve m n s hs

theorem surface_ok_false_of_bad (s : String) (c : Char) (hc : c ∈ s.data)
    (hcf : is_jp_char c = false) : surface_ok s = false := by
  unfold surface_ok
  cases hall : s.data.all is_jp_char with
  | false => simp [hall]
  | true =>
    have := List.all_eq_true.mp hall c hc
    rw [hcf] at this
    exact absurd this (by simp)

theorem bump_none_iff (m : InflMap) (t k : String) :
    bump m t k = none ↔ m k = none ∧ k ≠ t := by
  unfold bump
  split_ifs with hk
  · subst hk
    cases m k <;> simp
  · simp [hk]

theorem record_tags_none_iff (tags : List String) (m : InflMap) (k : String) :
    record_tags m tags k = none ↔ m k = none ∧ k ∉ tags := by
  induction tags generalizing m with
  | nil => simp [record_tags]
  | cons t rest ih =>
    show record_tags (bump m t) rest k = none ↔ _
    rw [ih (bump m t), bump_none_iff]
    simp only [List.mem_cons]
    constructor
    · rintro ⟨⟨h1, h2⟩, h3⟩
      exact ⟨h1, by tauto⟩
    · rintro ⟨h1, h2⟩
      exact ⟨⟨h1, fun he => h2 (Or.inl he)⟩, fun he => h2 (Or.inr he)⟩

/-- C4: a merged surface is inserted into a surface frequency map only if it
passes the script gate — recording any node list over a map leaves every
surface containing a non-Han/Katakana/Hiragana character untouched (so such a
surface is absent from a table built from empty) — while inflection tags are
recorded unconditionally (a tag key is missing only if no occurrence was
recorded); concretely, merging `exampleC4` produces the surface "A1られない"
which is filtered out of the surface map even though its inflection tag
"られない" is tallied. -/
theorem script_filter_gate (m : SurfMap) (ns : List Node) (s : String)
    (hbad : ∃ c ∈ s.data, is_jp_char c = false) :
    record_all m ns s = m s ∧
    (∀ (tags : List String) (m2 : InflMap),
      record_tags m2 tags s = none ↔ m2 s = none ∧ s ∉ tags) ∧
    record_all emptySurf (process_nodes exampleC4).1 "A1られない" = none ∧
    record_tags emptyInfl (process_nodes exampleC4).2 "られない" = some 1 := by
  obtain ⟨c, hc, hcf⟩ := hbad
  have hs := surface_ok_false_of_bad s c hc hcf
  exact ⟨record_all_preserve ns m s hs, fun tags m2 => record_tags_none_iff tags m2 s,
    by decide, by decide⟩

/-- Witness for C4 at a concrete bad surface: "A1られない" contains the Latin
letter A. -/
theorem script_filter_gate_witness :
    record_all emptySurf (process_nodes exampleC4).1 "A1られない" = none :=
  (script_filter_gate emptySurf (process_nodes exampleC4).1 "A1られない"
    ⟨'A', by decide, by decide⟩).2.2.1

/-- C5: the pos and dictionary form stored under a surface key belong to
whichever token first populated the key — recording another occurrence keeps
the key present and only leaves the frequency unchanged or incremented, never
revising pos/lemma; a fresh key is populated with the recording token's pos
and lemma; and merging a source map into a target keeps the target's
pos/lemma at every key the target already holds. -/
theorem first_writer_wins (m : SurfMap) (node : Node) (x y : SurfMap) (k : String)
    (e : NodeFrequency) :
    (m k = some e → ∃ e2, record_node m node k = some e2 ∧
        e2.pos = e.pos ∧ e2.dictionary_form = e.dictionary_form ∧
        (e2.frequency = e.frequency ∨ e2.frequency = u32add e.frequency 1)) ∧
    (m node.text = none → surface_ok node.text = true →
      record_node m node node.text =
        some { pos := node.pos, dictionary_form := node.dictionary_form, frequency := 1 }) ∧
    (x k = some e → ∃ e2, mergeInto x y k = some e2 ∧
        e2.pos = e.pos ∧ e2.dictionary_form = e.dictionary_form ∧
        (y k = none → e2.frequency = e.frequency) ∧
        (∀ w, y k = some w → e2.frequency = u32add e.frequency w.frequency)) := by
  refine ⟨?_, ?_, ?_⟩
  · intro he
    by_cases hok : surface_ok node.text = true
    · by_cases hk : k = node.text
      · subst hk
        exact ⟨{ e with frequency := u32add e.frequency 1 },
          by simp [record_node, hok, he], rfl, rfl, Or.inr rfl⟩
      · exact ⟨e, by simp [record_node, hok, hk, he], rfl, rfl, Or.inl rfl⟩
    · exact ⟨e, by simp [record_node, hok, he], rfl, rfl, Or.inl rfl⟩
  · intro hnone hok
    simp [record_node, hok, hnone]
  · intro he
    unfold mergeInto
    rw [he]
    cases hy : y k with
    | none =>
      exact ⟨e, rfl, rfl, rfl, fun _ => rfl, fun w hw => by simp at hw⟩
    | some w =>
      exact ⟨{ e with frequency := u32add e.frequency w.frequency }, rfl, rfl, rfl,
        fun hnone => by simp at hnone,
        fun w2 hw2 => by rw [Option.some.inj hw2]⟩

/-- Witness for C5: a key already holding a noun entry keeps its pos when a
verb token with the same surface is recorded again. -/
theorem first_writer_wins_witness :
    ∃ e2, record_node cexM2 { text := "み", pos := "動詞", dictionary_form := "みる" } "み"
        = some e2 ∧
      e2.pos = "名詞" ∧ e2.dictionary_form = "み" ∧
      (e2.frequency = 1 ∨ e2.frequency = u32add 1 1) :=
  (first_writer_wins cexM2 { text := "み", pos := "動詞", dictionary_form := "みる" }
    emptySurf emptySurf "み" { pos := "名詞", dictionary_form := "み", frequency := 1 }).1
    (by decide)

/-- C10: the empty string is never a key of any surface frequency map — the
script gate rejects the zero-length surface (the regex requires at least one
character), so recording preserves absence of the empty key, and merging maps
in which the empty key is absent keeps it absent. -/
theorem empty_surface_never_keyed (m : SurfMap) (ns : List Node) (x y : SurfMap) :
    surface_ok "" = false ∧
    (m "" = none → record_all m ns "" = none) ∧
    (x "" = none → y "" = none → mergeInto x y "" = none) := by
  refine ⟨by decide, ?_, ?_⟩
  · intro hm
    rw [record_all_preserve ns m "" (by decide)]
    exact hm
  · intro hx hy
    unfold mergeInto
    rw [hx, hy]

/-- Witness for C10 at the merged output of `exampleC1` over the empty map. -/
theorem empty_surface_never_keyed_witness :
    record_all emptySurf (process_nodes exampleC1).1 "" = none :=
  (empty_surface_never_keyed emptySurf (process_nodes exampleC1).1 emptySurf emptySurf).2.1 rfl

/-- C6 counterexample: on the 7-field feature string "a,b,c,d,e,f,g" the
adapter takes "g" — the field at index 6 — as the dictionary form (the
iterator consumes field 0 for the part-of-speech before skipping 5 more),
not the field "f" at index 5 that the claim names. -/
theorem dictionary_form_not_field5 :
    parse_feature "a,b,c,d,e,f,g" = ("a", "g") ∧
    parse_feature_spec "a,b,c,d,e,f,g" = ("a", "f") ∧
    parse_feature "a,b,c,d,e,f,g" ≠ parse_feature_spec "a,b,c,d,e,f,g" := by
  refine ⟨by decide, by decide, by decide⟩

/-- C6 (amended): the adapter takes field 0 of the comma-separated feature
string as the part-of-speech and the field at index 6 (0-based — field 0 is
consumed for the part-of-speech, then 5 more fields are skipped and the next
taken) as the dictionary form, defaulting to the empty string when that field
is absent. -/
theorem dictionary_form_field_index (feature : String) :
    parse_feature feature =
      ((((rust_split (fun c => c == ',') feature.data).map (fun cs => String.mk cs)).get? 0).getD "",
       (((rust_split (fun c => c == ',') feature.data).map (fun cs => String.mk cs)).get? 6).getD "") := by
  unfold parse_feature
  refine congrArg₂ Prod.mk ?_ ?_
  · rw [List.headD_eq_head?, List.head?_eq_getElem?, List.get?_eq_getElem?]
  · rw [List.drop_drop, List.headD_eq_head?, List.head?_eq_getElem?, List.getElem?_drop,
      List.get?_eq_getElem?]

theorem rust_split_ne_nil (p : Char → Bool) (cs : List Char) : rust_split p cs ≠ [] := by
  induction cs with
  | nil => simp [rust_split]
  | cons c rest ih =>
    rw [rust_split]
    split_ifs
    · simp
    · cases h : rust_split p rest with
      | nil => exact absurd h ih
      | cons g gs => simp

theorem rust_split_no_sep (p : Char → Bool) (cs : List Char) :
    ∀ f ∈ rust_split p cs, ∀ c ∈ f, p c = false := by
  induction cs with
  | nil =>
    intro f hf c hc
    simp [rust_split] at hf
    subst hf
    simp at hc
  | cons a rest ih =>
    intro f hf c hc
    rw [rust_split] at hf
    split_ifs at hf with ha
    · rcases List.mem_cons.mp hf with hf1 | hf2
      · subst hf1
        simp at hc
      · exact ih f hf2 c hc
    · cases hsp : rust_split p rest with
      | nil => exact absurd hsp (rust_split_ne_nil p rest)
      | cons g gs =>
        rw [hsp] at hf
        rcases List.mem_cons.mp hf with hf1 | hf2
        · subst hf1
          rcases List.mem_cons.mp hc with hc1 | hc2
          · subst hc1
            exact Bool.not_eq_true _ ▸ Bool.of_not_eq_true ha
          · exact ih g (hsp ▸ List.mem_cons_self g gs) c hc2
        · exact ih f (hsp ▸ List.mem_cons_of_mem g hf2) c hc

theorem rust_split_length (p : Char → Bool) (cs : List Char) :
    (rust_split p cs).length = cs.countP p + 1 := by
  induction cs with
  | nil => simp [rust_split]
  | cons a rest ih =>
    rw [rust_split]
    split_ifs with ha
    · simp [List.countP_cons, ha, ih]
    · cases hsp : rust_split p rest with
      | nil => exact absurd hsp (rust_split_ne_nil p rest)
      | cons g gs =>
        rw [hsp] at ih
        simp only [List.countP_cons, ha]
        simp at ih ⊢
        omega

/-- C7 counterexample: the segmenter does not drop empty spans — on the
input "！！" (two consecutive boundary characters) it produces three
fragments, all of them empty, so its output is not a sequence of non-empty
substrings. -/
theorem segmenter_keeps_empty_fragments :
    split_seps "！！" = ["", "", ""] ∧ "" ∈ split_seps "！！" := by
  refine ⟨by decide, by decide⟩

/-- C7 (amended): the segmenter splits its input at every boundary character
(Unicode whitespace, ASCII punctuation, or one of the fixed full-width
marks): no fragment contains a boundary character, and the number of
fragments is exactly the number of boundary characters plus one; runs of
consecutive (or leading/trailing) boundary characters yield empty fragments,
which are kept, not dropped. -/
theorem segmenter_splits_at_every_boundary (s : String) :
    ((split_seps s).all fun f => f.data.all fun c => !is_separator c) = true ∧
    (split_seps s).length = s.data.countP is_separator + 1 := by
  constructor
  · rw [List.all_eq_true]
    intro f hf
    rw [List.all_eq_true]
    intro c hc
    obtain ⟨cs, hcs, rfl⟩ := List.mem_map.mp hf
    have := rust_split_no_sep is_separator s.data cs hcs c hc
    simp [this]
  · rw [split_seps, List.length_map]
    exact rust_split_length is_separator s.data

theorem load_entries_none (parse : String → Option Entry) (lines : List String)
    (hbad : ∃ l ∈ lines, parse l = none) : load_entries parse lines = none := by
  induction lines with
  | nil => simp at hbad
  | cons l ls ih =>
    obtain ⟨l2, hl2, hpl2⟩ := hbad
    rw [load_entries]
    rcases List.mem_cons.mp hl2 with rfl | hmem
    · rw [hpl2]
    · cases hp : parse l with
      | none => rfl
      | some e => rw [ih ⟨l2, hmem, hpl2⟩]; rfl

theorem run_shards_none_of_missing (tokenize : String → List Node)
    (parse : String → Option Entry) (shards : List (Option (List String)))
    (hmiss : Option.none ∈ shards) :
    ∀ g, run_shards tokenize parse g shards = none := by
  induction shards with
  | nil => simp at hmiss
  | cons sh rest ih =>
    intro g
    cases sh with
    | none => rfl
    | some lines =>
      have hmem : Option.none ∈ rest := by
        rcases List.mem_cons.mp hmiss with h | h
        · exact absurd h (by simp)
        · exact h
      rw [run_shards]
      cases hle : load_entries parse lines with
      | none => rfl
      | some entries => exact ih hmem _

theorem run_shards_none_of_malformed (tokenize : String → List Node)
    (parse : String → Option Entry) (shards : List (Option (List String)))
    (hbad : ∃ lines, some lines ∈ shards ∧ (∃ l ∈ lines, parse l = none)) :
    ∀ g, run_shards tokenize parse g shards = none := by
  induction shards with
  | nil => simp at hbad
  | cons sh rest ih =>
    intro g
    obtain ⟨lines, hmem, hl⟩ := hbad
    cases sh with
    | none => rfl
    | some lines2 =>
      rw [run_shards]
      rcases List.mem_cons.mp hmem with heq | hmem2
      · obtain rfl := Option.some.inj heq
        rw [load_entries_none parse lines hl]
      · cases hle : load_entries parse lines2 with
        | none => rfl
        | some entries => exact ih ⟨lines, hmem2, hl⟩ _

/-- C9: a malformed input record (a line the JSON parser rejects) and a
missing expected shard file are both fatal — reading a shard with any
unparseable line yields no entry list at all, and a run over shards any one
of which is missing, or any one of which contains a malformed record, yields
no result at all: there is no per-record recovery, no retry, and no partial
result over the remaining records or shards. -/
theorem malformed_and_missing_are_fatal (tokenize : String → List Node)
    (parse : String → Option Entry) (g : SurfMap × InflMap)
    (lines : List String) (shards : List (Option (List String))) :
    ((∃ l ∈ lines, parse l = none) → load_entries parse lines = none) ∧
    (Option.none ∈ shards → run_shards tokenize parse g shards = none) ∧
    ((∃ lines2, some lines2 ∈ shards ∧ ∃ l ∈ lines2, parse l = none) →
      run_shards tokenize parse g shards = none) :=
  ⟨load_entries_none parse lines,
   fun hmiss => run_shards_none_of_missing tokenize parse shards hmiss g,
   fun hbad => run_shards_none_of_malformed tokenize parse shards hbad g⟩

/-- Witness for C9: one shard whose single line is rejected by the parser,
and one run whose first shard is missing. -/
theorem malformed_and_missing_are_fatal_witness :
    load_entries (fun _ => none) ["x"] = none ∧
    run_shards (fun _ => []) (fun _ => none) (emptySurf, emptyInfl) [none] = none :=
  ⟨(malformed_and_missing_are_fatal (fun _ => []) (fun _ => none) (emptySurf, emptyInfl)
      ["x"] [none]).1 ⟨"x", by simp, rfl⟩,
   (malformed_and_missing_are_fatal (fun _ => []) (fun _ => none) (emptySurf, emptyInfl)
      ["x"] [none]).2.1 (by simp)⟩
